import Mathlib

/-
Verification development for the video analysis job pipeline of the
Bolt.new basketball-video server (Express + Firestore + GCS + Video
Intelligence + OpenAI).  The embedding follows the complete revision of
the server (src/unnamed/part_000, second document, lines 133-434); the
sibling revisions (src/server.js, src/unnamed/part_001 and the first
document of part_000) are near-duplicates of the same core and are
referenced in comments where they differ.
-/

set_option maxRecDepth 100000

namespace BoltVideo

/- JSON values as produced by the platform's JSON.parse; number lexemes
are kept verbatim. -/
inductive Json where
  | null
  | bool (b : Bool)
  | num (lexeme : String)
  | str (value : String)
  | arr (items : List Json)
  | obj (entries : List (String × Json))
deriving Repr

/- Whitespace accepted between JSON tokens. -/
def isWsChar (c : Char) : Bool :=
  c = ' ' || c = '\t' || c = '\n' || c = '\r'

def skipWs : List Char → List Char
  | [] => []
  | c :: cs => if isWsChar c then skipWs cs else c :: cs

/- Value of a hexadecimal digit, by code point: 0-9, a-f, A-F. -/
def hexDigitVal (c : Char) : Option Nat :=
  let n := c.toNat
  if 48 ≤ n && n ≤ 57 then some (n - 48)
  else if 97 ≤ n && n ≤ 102 then some (n - 87)
  else if 65 ≤ n && n ≤ 70 then some (n - 55)
  else none

/- Body of a JSON string, after the opening quote.  Escape sequences are
those of JSON.parse. -/
def parseStringBody : Nat → List Char → List Char → Option (String × List Char)
  | 0, _, _ => none
  | _ + 1, [], _ => none
  | f + 1, c :: rest, acc =>
    if c = '"' then some (String.mk acc.reverse, rest)
    else if c = '\\' then
      match rest with
      | [] => none
      | e :: rest2 =>
        if e = '"' then parseStringBody f rest2 ('"' :: acc)
        else if e = '\\' then parseStringBody f rest2 ('\\' :: acc)
        else if e = '/' then parseStringBody f rest2 ('/' :: acc)
        else if e = 'n' then parseStringBody f rest2 ('\n' :: acc)
        else if e = 't' then parseStringBody f rest2 ('\t' :: acc)
        else if e = 'r' then parseStringBody f rest2 ('\r' :: acc)
        else if e = 'b' then parseStringBody f rest2 ('\x08' :: acc)
        else if e = 'f' then parseStringBody f rest2 ('\x0c' :: acc)
        else if e = 'u' then
          match rest2 with
          | h1 :: h2 :: h3 :: h4 :: rest3 =>
            match hexDigitVal h1, hexDigitVal h2, hexDigitVal h3, hexDigitVal h4 with
            | some a, some b, some cc, some d =>
              parseStringBody f rest3 (Char.ofNat (((a * 16 + b) * 16 + cc) * 16 + d) :: acc)
            | _, _, _, _ => none
          | _ => none
        else none
    else parseStringBody f rest (c :: acc)

def takeDigits : List Char → List Char × List Char
  | [] => ([], [])
  | c :: cs =>
    if c.isDigit then
      let (d, r) := takeDigits cs
      (c :: d, r)
    else ([], c :: cs)

/- Fractional part of a JSON number ('.' followed by digits). -/
def parseFrac (cs : List Char) : List Char × List Char :=
  match cs with
  | '.' :: rest =>
    match takeDigits rest with
    | ([], _) => ([], cs)
    | (ds, r) => ('.' :: ds, r)
  | _ => ([], cs)

/- Exponent part of a JSON number. -/
def parseExp (cs : List Char) : List Char × List Char :=
  match cs with
  | c :: rest =>
    if c = 'e' || c = 'E' then
      match rest with
      | s :: rest2 =>
        if s = '+' || s = '-' then
          match takeDigits rest2 with
          | ([], _) => ([], cs)
          | (ds, r) => (c :: s :: ds, r)
        else
          match takeDigits rest with
          | ([], _) => ([], cs)
          | (ds, r) => (c :: ds, r)
      | [] => ([], cs)
    else ([], cs)
  | [] => ([], [])

/- Lexeme of a JSON number (sign, integer part, fraction, exponent).
The strict-JSON rejection of redundant leading zeros is elided; no
input in this development exercises it. -/
def parseNumLex (cs : List Char) : Option (List Char × List Char) :=
  match cs with
  | '-' :: r =>
    match takeDigits r with
    | ([], _) => none
    | (ds, r1) =>
      let (fs, r2) := parseFrac r1
      let (es, r3) := parseExp r2
      some ('-' :: (ds ++ fs ++ es), r3)
  | _ =>
    match takeDigits cs with
    | ([], _) => none
    | (ds, r1) =>
      let (fs, r2) := parseFrac r1
      let (es, r3) := parseExp r2
      some (ds ++ fs ++ es, r3)

/- Parsing mode: a single value, the members of an object, or the
elements of an array (with the members/elements parsed so far). -/
inductive PMode where
  | value
  | members (acc : List (String × Json))
  | elems (acc : List Json)

/- Fuel-indexed recursive-descent JSON parser. -/
def parseStep : Nat → PMode → List Char → Option (Json × List Char)
  | 0, _, _ => none
  | f + 1, .value, cs =>
    match skipWs cs with
    | [] => none
    | c :: rest =>
      if c = '"' then
        match parseStringBody (rest.length + 1) rest [] with
        | some (s, r) => some (.str s, r)
        | none => none
      else if c = '{' then
        match skipWs rest with
        | '}' :: r => some (.obj [], r)
        | cs2 => parseStep f (.members []) cs2
      else if c = '[' then
        match skipWs rest with
        | ']' :: r => some (.arr [], r)
        | cs2 => parseStep f (.elems []) cs2
      else if c = 't' then
        match rest with
        | 'r' :: 'u' :: 'e' :: r => some (.bool true, r)
        | _ => none
      else if c = 'f' then
        match rest with
        | 'a' :: 'l' :: 's' :: 'e' :: r => some (.bool false, r)
        | _ => none
      else if c = 'n' then
        match rest with
        | 'u' :: 'l' :: 'l' :: r => some (.null, r)
        | _ => none
      else
        match parseNumLex (c :: rest) with
        | some (lex, r) => some (.num (String.mk lex), r)
        | none => none
  | f + 1, .members acc, cs =>
    match skipWs cs with
    | '"' :: rest =>
      match parseStringBody (rest.length + 1) rest [] with
      | none => none
      | some (k, r1) =>
        match skipWs r1 with
        | ':' :: r2 =>
          match parseStep f .value r2 with
          | none => none
          | some (v, r3) =>
            match skipWs r3 with
            | ',' :: r4 => parseStep f (.members ((k, v) :: acc)) r4
            | '}' :: r4 => some (.obj ((k, v) :: acc).reverse, r4)
            | _ => none
        | _ => none
    | _ => none
  | f + 1, .elems acc, cs =>
    match parseStep f .value cs with
    | none => none
    | some (v, r1) =>
      match skipWs r1 with
      | ',' :: r2 => parseStep f (.elems (v :: acc)) r2
      | ']' :: r2 => some (.arr (v :: acc).reverse, r2)
      | _ => none

/- Model of the platform's JSON.parse: parse one value, then require
only trailing whitespace. -/
def jsonParse (s : String) : Option Json :=
  match parseStep (2 * s.length + 4) .value s.toList with
  | some (j, rest) => if skipWs rest = [] then some j else none
  | none => none

/- Index of the first occurrence of a character (String.prototype.indexOf). -/
def indexOf? : List Char → Char → Option Nat
  | [], _ => none
  | c :: cs, t => if c = t then some 0 else (indexOf? cs t).map (· + 1)

/- Index of the last occurrence of a character (String.prototype.lastIndexOf). -/
def lastIndexOf? : List Char → Char → Option Nat
  | [], _ => none
  | c :: cs, t =>
    match lastIndexOf? cs t with
    | some i => some (i + 1)
    | none => if c = t then some 0 else none

/- JS indexOf result: the index, or -1 when absent. -/
def jsIndexOf (cs : List Char) (t : Char) : Int :=
  match indexOf? cs t with
  | some i => (i : Int)
  | none => -1

def jsLastIndexOf (cs : List Char) (t : Char) : Int :=
  match lastIndexOf? cs t with
  | some i => (i : Int)
  | none => -1

/- Clamping of a (possibly negative) index as done by String.prototype.slice. -/
def clampIdx (n : Nat) (i : Int) : Nat :=
  if i < 0 then ((n : Int) + i).toNat else min i.toNat n

/- String.prototype.slice on the character list of the string. -/
def jsSlice (cs : List Char) (start stop : Int) : List Char :=
  (cs.take (clampIdx cs.length stop)).drop (clampIdx cs.length start)

/- part_000 lines 299-304: `content.indexOf` of the first brace,
`content.lastIndexOf` of the last brace, and
`content.slice(jsonStart, jsonEnd + 1)`. -/
def extractJsonSlice (content : String) : String :=
  String.mk (jsSlice content.toList (jsIndexOf content.toList '{')
    (jsLastIndexOf content.toList '}' + 1))

/- part_000 lines 301-308: JSON.parse of the extracted slice; on a parse
failure the handler logs the raw model text
(`console.error('... not valid JSON:' + content)`) and returns a 500
without touching any store.  The error value below is that logged
diagnostic, which carries the offending raw text. -/
def parseModelResponse (content : String) : Except String Json :=
  match jsonParse (extractJsonSlice content) with
  | some parsed => .ok parsed
  | none => .error ("❌ OpenAI response was not valid JSON:\n" ++ content)

/- Label annotation data returned by the Video Intelligence client:
an entity with a description, and a list of time segments. -/
structure VideoSegment where
  startTimeMs : Nat
  endTimeMs : Nat

structure LabelEntity where
  description : String

structure LabelAnn where
  entity : LabelEntity
  segments : Option (List VideoSegment)

/- One annotation result (`result.annotationResults[i]`); only the
segment label list is consumed by the pipeline. -/
structure AnnResult where
  segmentLabelAnnotations : Option (List LabelAnn)

/- part_000 line 239: `label.entity.description`: `label.segments?.length || 0` segments. -/
def labelLine (label : LabelAnn) : String :=
  label.entity.description ++ ": " ++ toString (label.segments.getD []).length ++ " segments"

/- Array.prototype.join('\n'). -/
def joinLines : List String → String
  | [] => ""
  | [x] => x
  | x :: y :: ys => x ++ "\n" ++ joinLines (y :: ys)

/- part_000 lines 238-240:
`annotations.segmentLabelAnnotations?.slice(0, 10).map(...).join('\n') || 'No labels found'`.
The limit is the slice bound (10 at this call site, 5 in the chat
endpoints); the `||` turns both an absent list (undefined) and an empty
joined string into the sentinel. -/
def extractFeatureLines (segLabels : Option (List LabelAnn)) (limit : Nat) : String :=
  match segLabels with
  | none => "No labels found"
  | some ls =>
    let joined := joinLines ((ls.take limit).map labelLine)
    if joined = "" then "No labels found" else joined

def trimLeftChars : List Char → List Char
  | [] => []
  | c :: cs => if isWsChar c then trimLeftChars cs else c :: cs

/- String.prototype.trim (part_000 line 298 applies it to the model
response text). -/
def jsTrim (s : String) : String :=
  String.mk (trimLeftChars (trimLeftChars s.toList.reverse).reverse)

/- A Firestore document of the `videos` collection, with the fields the
upload and analyze handlers read and write (part_000 lines 199-207 and
316-321).  Fields that a revision has not yet written are `none`. -/
structure VideoDoc where
  name : String
  size : Nat
  filename : String
  gcsUri : String
  status : String
  uploadedAt : String
  project : Option String
  analysisPath : Option String
  analysisSummary : Option Json
  analyzedAt : Option String

/- The `videos` collection, keyed by document id. -/
def JobStore := List (String × VideoDoc)

/- `db.collection('videos').doc(v).get()`. -/
def storeGet : JobStore → String → Option VideoDoc
  | [], _ => none
  | (k, d) :: rest, v => if k = v then some d else storeGet rest v

/- Artifact key `analysis/analysis_<videoId>.json` (part_000 lines 235, 312). -/
def analysisKey (videoId : String) : String :=
  "analysis/analysis_" ++ videoId ++ ".json"

/- The merge performed by `docRef.update` on the success path
(part_000 lines 316-321): analysisPath, analysisSummary,
status: 'analyzed', analyzedAt: new Date().toISOString(). -/
def analyzedDoc (d : VideoDoc) (videoId : String) (parsed : Json) (now : String) : VideoDoc :=
  { d with
    analysisPath := some (analysisKey videoId)
    analysisSummary := some parsed
    status := "analyzed"
    analyzedAt := some now }

def updateAnalyzed : JobStore → String → Json → String → JobStore
  | [], _, _, _ => []
  | (k, d) :: rest, v, parsed, now =>
    if k = v then (k, analyzedDoc d v parsed now) :: updateAnalyzed rest v parsed now
    else (k, d) :: updateAnalyzed rest v parsed now

/- Outcome of `videoClient.annotateVideo` followed by
`operation.promise({ timeout })`: either the whole call rejects, or the
long-running operation completes after some wall-clock wait with a list
of annotation results. -/
inductive AnnOutcome where
  | rejects (msg : String)
  | completes (afterMs : Nat) (results : List AnnResult)

/- `operation.promise({ timeout: timeoutMs })`: resolves when the
operation completes within the bound, rejects past the bound. -/
def awaitOperation (timeoutMs : Nat) (o : AnnOutcome) : Except String (List AnnResult) :=
  match o with
  | .rejects msg => .error msg
  | .completes afterMs results =>
    if afterMs ≤ timeoutMs then .ok results else .error "Total timeout of API exceeded"

/- The bound passed at part_000 line 232 and server.js line 100:
`operation.promise({ timeout: 600000 })` — 600000 ms. -/
def analyzeTimeoutMs : Nat := 600000

/- The bound passed by the earliest revision (part_000 line 80), whose
comment reads `// 600 sec = 10 min`: 60000000 ms. -/
def legacyTimeoutMs : Nat := 60000000

/- External-collaborator behavior for one analyze invocation: the
annotation outcome, the model completion (as a function of the metadata
lines embedded in the prompt; sampling at temperature 0.7 makes the
text an input, not a function of the prompt alone), whether the two
persistence calls succeed, and the wall-clock timestamp. -/
structure AnalyzeEnv where
  annOutcome : AnnOutcome
  complete : String → String
  artifactPutOk : Bool
  docUpdateOk : Bool
  now : String

/- The HTTP response the handler sends. -/
inductive HttpResponse where
  | ok (body : String)
  | badRequest (body : String)
  | notFound (body : String)
  | serverError (body : String)

/- Observable effects of one analyze invocation: the response, the
store after the call, the artifact uploads performed
(destination, content), and the inputUri values submitted to the
annotation client. -/
structure AnalyzeResult where
  response : HttpResponse
  store : JobStore
  artifactPuts : List (String × Json)
  annRequests : List String

/- The GET /analyze-video handler (part_000 lines 217-329; server.js
lines 85-136 is the same flow, with its persistence block duplicated
and referencing undefined identifiers, so it throws into the same
catch).  Every thrown error lands in the catch at lines 325-328, which
sends a 500 and performs no store write. -/
def analyzeVideo (videoId : Option String) (env : AnalyzeEnv) (st : JobStore) : AnalyzeResult :=
  match videoId with
  | none => ⟨.badRequest "❌ videoId is required", st, [], []⟩
  | some v =>
    match storeGet st v with
    | none => ⟨.notFound "❌ Video not found", st, [], []⟩
    | some doc =>
      match awaitOperation analyzeTimeoutMs env.annOutcome with
      | .error _ => ⟨.serverError "❌ Analysis failed", st, [], [doc.gcsUri]⟩
      | .ok results =>
        match results with
        | [] =>
          -- result.annotationResults[0] is undefined: the dereference
          -- `annotations.segmentLabelAnnotations` throws into the catch.
          ⟨.serverError "❌ Analysis failed", st, [], [doc.gcsUri]⟩
        | annResult :: _ =>
          let labels := extractFeatureLines annResult.segmentLabelAnnotations 10
          let content := jsTrim (env.complete labels)
          match parseModelResponse content with
          | .error _ =>
            ⟨.serverError "❌ OpenAI returned invalid JSON. Check logs for details.", st, [],
              [doc.gcsUri]⟩
          | .ok parsed =>
            if env.artifactPutOk then
              if env.docUpdateOk then
                ⟨.ok "✅ Analysis complete", updateAnalyzed st v parsed env.now,
                  [(analysisKey v, parsed)], [doc.gcsUri]⟩
              else
                -- artifact stored, then docRef.update threw into the catch
                ⟨.serverError "❌ Analysis failed", st, [(analysisKey v, parsed)], [doc.gcsUri]⟩
            else
              ⟨.serverError "❌ Analysis failed", st, [], [doc.gcsUri]⟩

/- In-process state of the server: the document store plus the
`lastUploadedFile` module-level variable kept by the legacy revisions
(part_001 line 48, part_000 line 34); the final revision never reads
it. -/
structure ServerState where
  store : JobStore
  lastUploadedFile : String

def processAnalyze (videoId : Option String) (env : AnalyzeEnv) (s : ServerState) : AnalyzeResult :=
  analyzeVideo videoId env s.store

/- Request data of one POST /upload-video call (part_000 lines 188-209). -/
structure UploadMeta where
  originalname : String
  size : Nat
  filename : String
  now : String
  project : Option String

/- The document created by `db.collection('videos').add` at upload
(part_000 lines 199-207). -/
def uploadDoc (m : UploadMeta) : VideoDoc :=
  { name := m.originalname
    size := m.size
    filename := m.filename
    gcsUri := "gs://basketball-demo-videos/" ++ m.filename
    status := "uploaded"
    uploadedAt := m.now
    project := m.project
    analysisPath := none
    analysisSummary := none
    analyzedAt := none }

/- The store-mutating operations of the pipeline.  `db.collection.add`
always creates a document under a fresh id, hence the freshness guard. -/
inductive Event where
  | upload (id : String) (m : UploadMeta)
  | analyze (videoId : Option String) (env : AnalyzeEnv)

def applyEvent : Event → JobStore → JobStore
  | .upload id m, st => if (storeGet st id).isSome then st else (id, uploadDoc m) :: st
  | .analyze videoId env, st => (analyzeVideo videoId env st).store

/- States reachable from the empty collection by upload and analyze
calls. -/
def reachable (st : JobStore) : Prop :=
  ∃ evs : List Event, st = evs.foldl (fun s e => applyEvent e s) []

/- Presence of a top-level key in a parsed JSON object. -/
def Json.hasKey : Json → String → Bool
  | .obj members, k => members.any (fun m => m.1 == k)
  | _, _ => false

/- The top-level keys of the AnalysisSummary schema embedded in the
prompt (part_000 lines 249-277). -/
def requiredSummaryKeys : List String :=
  ["shotZones", "playStyle", "defense", "rimTendencies", "hotSpots", "handDominance"]

/- Concrete fixtures used to evaluate the pipeline. -/

def driveLabel : LabelAnn := ⟨⟨"drive"⟩, some [⟨0, 1000⟩, ⟨1000, 2000⟩]⟩

def sampleAnnResult : AnnResult := ⟨some [driveLabel]⟩

/- A model response carrying every top-level key of the schema. -/
def validSummaryText : String :=
  "\x7b\"shotZones\":\x7b\x7d,\"playStyle\":\x7b\x7d,\"defense\":\x7b\x7d,\"rimTendencies\":\x7b\x7d,\"hotSpots\":[],\"handDominance\":\x7b\x7d\x7d"

def validSummaryJson : Json :=
  .obj [("shotZones", .obj []), ("playStyle", .obj []), ("defense", .obj []),
        ("rimTendencies", .obj []), ("hotSpots", .arr []), ("handDominance", .obj [])]

/- A model response whose JSON object misses every schema key but
shotZones. -/
def missingKeysText : String := "\x7b\"shotZones\":\x7b\x7d\x7d"

def metaV1 : UploadMeta :=
  ⟨"game.mp4", 1000000, "abc123", "2024-12-31T00:00:00.000Z", none⟩

def docUploaded : VideoDoc := uploadDoc metaV1

def docAnalyzing : VideoDoc := { docUploaded with status := "analyzing" }

/- An environment in which every collaborator succeeds. -/
def envOk : AnalyzeEnv :=
  { annOutcome := .completes 1000 [sampleAnnResult]
    complete := fun _ => validSummaryText
    artifactPutOk := true
    docUpdateOk := true
    now := "2025-01-01T00:00:00.000Z" }

def envAnnFail : AnalyzeEnv := { envOk with annOutcome := .rejects "7 PERMISSION_DENIED" }

def envTimeout : AnalyzeEnv := { envOk with annOutcome := .completes 600001 [sampleAnnResult] }

def envMissingKeys : AnalyzeEnv := { envOk with complete := fun _ => missingKeysText }

def envBadJson : AnalyzeEnv := { envOk with complete := fun _ => "not json at all" }

/- ------------------------------------------------------------------ -/
/- Store lemmas                                                        -/
/- ------------------------------------------------------------------ -/

theorem storeGet_updateAnalyzed (st : JobStore) (v : String) (parsed : Json) (now : String)
    (k : String) :
    storeGet (updateAnalyzed st v parsed now) k =
      (storeGet st k).map (fun d => if k = v then analyzedDoc d v parsed now else d) := by
  induction st with
  | nil => rfl
  | cons hd rest ih =>
    obtain ⟨k', d⟩ := hd
    by_cases hkv : k' = v
    · subst hkv
      by_cases hkk : k' = k
      · subst hkk; simp [updateAnalyzed, storeGet]
      · simp [updateAnalyzed, storeGet, hkk, ih]
    · by_cases hkk : k' = k
      · subst hkk
        simp [updateAnalyzed, storeGet, hkv]
      · simp [updateAnalyzed, storeGet, hkv, hkk, ih]

/- Any analyze invocation either leaves the store unchanged or applies
the single success-path update for the requested id. -/
theorem analyzeVideo_store_shape (videoId : Option String) (env : AnalyzeEnv) (st : JobStore) :
    (analyzeVideo videoId env st).store = st ∨
    ∃ v parsed, videoId = some v ∧ (storeGet st v).isSome ∧
      (analyzeVideo videoId env st).store = updateAnalyzed st v parsed env.now := by
  unfold analyzeVideo
  cases videoId with
  | none => left; rfl
  | some v =>
    cases hdoc : storeGet st v with
    | none => simp [hdoc]
    | some doc =>
      simp only [hdoc]
      cases awaitOperation analyzeTimeoutMs env.annOutcome with
      | error e => left; rfl
      | ok results =>
        cases results with
        | nil => left; rfl
        | cons annResult rest =>
          simp only
          cases parseModelResponse (jsTrim (env.complete
              (extractFeatureLines annResult.segmentLabelAnnotations 10))) with
          | error e => left; rfl
          | ok parsed =>
            simp only
            by_cases hput : env.artifactPutOk
            · by_cases hupd : env.docUpdateOk
              · right
                exact ⟨v, parsed, rfl, by simp [hdoc], by simp [hput, hupd]⟩
              · left; simp [hput, hupd]
            · left; simp [hput]

/- ------------------------------------------------------------------ -/
/- Claim theorems                                                      -/
/- ------------------------------------------------------------------ -/

/-- C1. The spec requires Analyze on a job whose status is `Analyzing` to
fail with Conflict and leave the record unchanged.  The handler performs
no status precondition at all (part_000 lines 222-232): on a document
whose status is "analyzing" it runs the whole pipeline, answers
"✅ Analysis complete" and overwrites the record to "analyzed".  This
evaluates the code on such a document and exhibits that divergence. -/
theorem analyze_ignores_analyzing_status :
    (analyzeVideo (some "v1") envOk [("v1", docAnalyzing)]).response =
      .ok "✅ Analysis complete" ∧
    docAnalyzing.status = "analyzing" ∧
    (storeGet (analyzeVideo (some "v1") envOk [("v1", docAnalyzing)]).store "v1").map
      VideoDoc.status = some "analyzed" :=
  ⟨rfl, rfl, rfl⟩

/-- C2. The spec requires that after Analyze returns the job is terminal
(`Analyzed` or `Failed`), and that any failure past the `Analyzing`
transition writes `Failed` with a reason.  The handler's catch
(part_000 lines 325-328) only sends a 500: on an annotation failure the
store is completely untouched, the job stays "uploaded" (not terminal),
and no "failed" status or error reason is ever written — indeed the
code never writes "analyzing" or "failed" anywhere. -/
theorem analyze_failure_leaves_job_nonterminal :
    (analyzeVideo (some "v1") envAnnFail [("v1", docUploaded)]).response =
      .serverError "❌ Analysis failed" ∧
    (analyzeVideo (some "v1") envAnnFail [("v1", docUploaded)]).store = [("v1", docUploaded)] ∧
    docUploaded.status = "uploaded" :=
  ⟨rfl, rfl, rfl⟩

/-- C6. The spec requires ParseAndValidate to reject a parsed object
missing required AnalysisSummary keys with SchemaViolation.  The code
(part_000 lines 298-321) performs no key validation: a response whose
object has only `shotZones` parses, is accepted, and is persisted
verbatim as the analysisSummary, with status set to "analyzed". -/
theorem parse_accepts_missing_keys :
    parseModelResponse missingKeysText = .ok (.obj [("shotZones", .obj [])]) ∧
    Json.hasKey (.obj [("shotZones", .obj [])]) "playStyle" = false ∧
    (analyzeVideo (some "v1") envMissingKeys [("v1", docUploaded)]).response =
      .ok "✅ Analysis complete" ∧
    (storeGet (analyzeVideo (some "v1") envMissingKeys [("v1", docUploaded)]).store "v1").map
      VideoDoc.analysisSummary = some (some (.obj [("shotZones", .obj [])])) :=
  ⟨rfl, rfl, rfl, rfl⟩

/-- C7. The final revision does pass the 600-second bound
(`timeout: 600000` at part_000 line 232 / server.js line 100), but the
earliest revision (part_000 line 80) passes 60000000 ms — 60000 s —
while its own comment reads `600 sec = 10 min`; and when the bound is
exceeded the rejection lands in the catch, which leaves the record
untouched: no `Failed` status and no lastError mentioning the timeout
is ever written (the record has no lastError field at all). -/
theorem analyze_timeout_no_failed_update :
    analyzeTimeoutMs = 600 * 1000 ∧
    legacyTimeoutMs = 60000 * 1000 ∧
    awaitOperation analyzeTimeoutMs envTimeout.annOutcome =
      .error "Total timeout of API exceeded" ∧
    (analyzeVideo (some "v1") envTimeout [("v1", docUploaded)]).response =
      .serverError "❌ Analysis failed" ∧
    (analyzeVideo (some "v1") envTimeout [("v1", docUploaded)]).store = [("v1", docUploaded)] ∧
    docUploaded.status = "uploaded" ∧
    docUploaded.analyzedAt = none :=
  ⟨rfl, rfl, rfl, rfl, rfl, rfl, rfl⟩

/- A second successful environment with a later wall-clock timestamp. -/
def envOk2 : AnalyzeEnv := { envOk with now := "2025-02-02T00:00:00.000Z" }

/- A three-event history: upload, then two successful analyze calls. -/
def stAfterUpload : JobStore := applyEvent (.upload "v1" metaV1) []

def stAfterAnalyze1 : JobStore := applyEvent (.analyze (some "v1") envOk) stAfterUpload

def stAfterAnalyze2 : JobStore := applyEvent (.analyze (some "v1") envOk2) stAfterAnalyze1

/-- C9 counterexample. `analyzedAt` is not written at most once: a second
successful analyze call on the same id (nothing in the code prevents
re-analysis) overwrites the previously set `analyzedAt` with the new
timestamp, so a subsequent operation does mutate the field after it was
set. -/
theorem analyzedAt_overwritten_on_reanalysis :
    (storeGet stAfterAnalyze1 "v1").map VideoDoc.analyzedAt =
      some (some "2025-01-01T00:00:00.000Z") ∧
    (storeGet stAfterAnalyze2 "v1").map VideoDoc.analyzedAt =
      some (some "2025-02-02T00:00:00.000Z") ∧
    ("2025-01-01T00:00:00.000Z" : String) ≠ "2025-02-02T00:00:00.000Z" :=
  ⟨rfl, rfl, by decide⟩

/-- C9 amended. `uploadedAt` (the record's creation timestamp) is written
only at creation and never mutated by any subsequent operation; but
`analyzedAt` is overwritten by every successful analyze call — it
either stays what it was or becomes the current invocation's timestamp,
so re-analysis mutates it. -/
theorem timestamps_frame_conditions (e : Event) (st : JobStore) (v : String)
    (d d' : VideoDoc) (hd : storeGet st v = some d)
    (hd' : storeGet (applyEvent e st) v = some d') :
    d'.uploadedAt = d.uploadedAt ∧
    (d'.analyzedAt = d.analyzedAt ∨
      ∃ videoId env, e = .analyze videoId env ∧ d'.analyzedAt = some env.now) := by
  cases e with
  | upload id m =>
    simp only [applyEvent] at hd'
    by_cases hex : (storeGet st id).isSome
    · rw [if_pos hex, hd] at hd'
      cases hd'; exact ⟨rfl, Or.inl rfl⟩
    · rw [if_neg hex] at hd'
      by_cases hid : id = v
      · subst hid
        rw [hd] at hex
        exact absurd rfl hex
      · simp only [storeGet, if_neg hid, hd] at hd'
        cases hd'; exact ⟨rfl, Or.inl rfl⟩
  | analyze videoId env =>
    simp only [applyEvent] at hd'
    rcases analyzeVideo_store_shape videoId env st with hsh | ⟨v0, parsed, _, _, hsh⟩
    · rw [hsh, hd] at hd'
      cases hd'; exact ⟨rfl, Or.inl rfl⟩
    · rw [hsh, storeGet_updateAnalyzed, hd] at hd'
      by_cases hv : v = v0
      · simp only [Option.map, hv, if_pos rfl] at hd'
        cases hd'
        exact ⟨rfl, Or.inr ⟨videoId, env, rfl, rfl⟩⟩
      · simp only [Option.map, if_neg hv] at hd'
        cases hd'; exact ⟨rfl, Or.inl rfl⟩

/- The success-path document of the first analyze call, used to witness
the frame conditions at a concrete input. -/
def docAnalyzed1 : VideoDoc := analyzedDoc docUploaded "v1" validSummaryJson "2025-01-01T00:00:00.000Z"

theorem timestamps_frame_conditions_witness :
    storeGet stAfterUpload "v1" = some docUploaded ∧
    storeGet (applyEvent (.analyze (some "v1") envOk) stAfterUpload) "v1" = some docAnalyzed1 ∧
    (docAnalyzed1.uploadedAt = docUploaded.uploadedAt ∧
      (docAnalyzed1.analyzedAt = docUploaded.analyzedAt ∨
        ∃ videoId env, Event.analyze (some "v1") envOk = .analyze videoId env ∧
          docAnalyzed1.analyzedAt = some env.now)) :=
  ⟨rfl, rfl,
    timestamps_frame_conditions (.analyze (some "v1") envOk) stAfterUpload "v1"
      docUploaded docAnalyzed1 rfl rfl⟩

/- The claimed invariant: the artifact reference field is set exactly on
analyzed documents. -/
def artifactIffAnalyzed (st : JobStore) : Prop :=
  ∀ k d, storeGet st k = some d → (d.analysisPath.isSome ↔ d.status = "analyzed")

theorem artifactIffAnalyzed_step (e : Event) (st : JobStore)
    (h : artifactIffAnalyzed st) : artifactIffAnalyzed (applyEvent e st) := by
  cases e with
  | upload id m =>
    intro k d hk
    simp only [applyEvent] at hk
    by_cases hex : (storeGet st id).isSome
    · rw [if_pos hex] at hk
      exact h k d hk
    · rw [if_neg hex] at hk
      by_cases hid : id = k
      · simp only [storeGet, if_pos hid] at hk
        cases hk
        simp [uploadDoc]
      · simp only [storeGet, if_neg hid] at hk
        exact h k d hk
  | analyze videoId env =>
    intro k d hk
    simp only [applyEvent] at hk
    rcases analyzeVideo_store_shape videoId env st with hsh | ⟨v0, parsed, _, _, hsh⟩
    · rw [hsh] at hk
      exact h k d hk
    · rw [hsh, storeGet_updateAnalyzed] at hk
      cases hget : storeGet st k with
      | none => rw [hget] at hk; cases hk
      | some d0 =>
        rw [hget, Option.map_some'] at hk
        cases hk
        by_cases hv : k = v0
        · simp [if_pos hv, analyzedDoc]
        · simp only [if_neg hv]
          exact h k d0 hget

theorem artifactIffAnalyzed_foldl (evs : List Event) (st0 : JobStore)
    (h : artifactIffAnalyzed st0) :
    artifactIffAnalyzed (evs.foldl (fun s e => applyEvent e s) st0) := by
  induction evs generalizing st0 with
  | nil => exact h
  | cons e rest ih =>
    exact ih (applyEvent e st0) (artifactIffAnalyzed_step e st0 h)

/-- C3. In every state reachable by the pipeline's operations (uploads
create records with status "uploaded" and no analysisPath; analyze
either leaves the store unchanged or sets analysisPath together with
status "analyzed" in one update, part_000 lines 316-321), a record's
analysisPath is set if and only if its status is "analyzed". -/
theorem reachable_artifactRef_iff_analyzed (st : JobStore) (h : reachable st)
    (k : String) (d : VideoDoc) (hk : storeGet st k = some d) :
    d.analysisPath.isSome ↔ d.status = "analyzed" := by
  obtain ⟨evs, rfl⟩ := h
  exact artifactIffAnalyzed_foldl evs [] (fun _ _ hx => by cases hx) k d hk

theorem reachable_artifactRef_iff_analyzed_witness :
    reachable stAfterAnalyze1 ∧
    storeGet stAfterAnalyze1 "v1" = some docAnalyzed1 ∧
    (docAnalyzed1.analysisPath.isSome ↔ docAnalyzed1.status = "analyzed") :=
  have hre : reachable stAfterAnalyze1 :=
    ⟨[.upload "v1" metaV1, .analyze (some "v1") envOk], rfl⟩
  ⟨hre, rfl, reachable_artifactRef_iff_analyzed stAfterAnalyze1 hre "v1" docAnalyzed1 rfl⟩

theorem length_le_joinLines_head (x : String) (xs : List String) :
    x.length ≤ (joinLines (x :: xs)).length := by
  cases xs with
  | nil => exact Nat.le_refl _
  | cons y ys =>
    simp only [joinLines, String.length_append]
    omega

theorem labelLine_length_pos (l : LabelAnn) : 1 ≤ (labelLine l).length := by
  simp only [labelLine, String.length_append]
  have : (" segments" : String).length = 9 := rfl
  omega

theorem joinLines_cons_ne_empty (x : String) (hx : 1 ≤ x.length) (xs : List String) :
    joinLines (x :: xs) ≠ "" := by
  intro h
  have hlen := length_le_joinLines_head x xs
  rw [h] at hlen
  have hz : ("" : String).length = 0 := rfl
  omega

/-- C4. The feature-line extraction (part_000 lines 238-240) takes the
first `limit` label annotations in payload order (no re-sorting), emits
one line per label of the form description, colon, segment count,
"segments", joins them with newlines, and yields the sentinel
"No labels found" exactly when the label list is absent or empty (for
any positive limit). -/
theorem extractFeatureLines_spec (limit : Nat) (l : LabelAnn) (ls : List LabelAnn) :
    extractFeatureLines none limit = "No labels found" ∧
    extractFeatureLines (some []) limit = "No labels found" ∧
    (1 ≤ limit →
      extractFeatureLines (some (l :: ls)) limit =
        joinLines (((l :: ls).take limit).map labelLine)) := by
  refine ⟨rfl, by simp [extractFeatureLines, joinLines], fun hlim => ?_⟩
  obtain ⟨k, rfl⟩ : ∃ k, limit = k + 1 := ⟨limit - 1, by omega⟩
  simp only [extractFeatureLines, List.take_succ_cons, List.map_cons]
  rw [if_neg (joinLines_cons_ne_empty (labelLine l) (labelLine_length_pos l)
    ((ls.take k).map labelLine))]

theorem extractFeatureLines_spec_witness :
    (1 ≤ 5) ∧ extractFeatureLines (some [driveLabel]) 5 = "drive: 2 segments" :=
  ⟨by decide,
    ((extractFeatureLines_spec 5 driveLabel []).2.2 (by decide)).trans rfl⟩

/- ------------------------------------------------------------------ -/
/- Lemmas on the brace-slice extraction                                -/
/- ------------------------------------------------------------------ -/

theorem indexOf?_eq_none (cs : List Char) (t : Char) (h : t ∉ cs) : indexOf? cs t = none := by
  induction cs with
  | nil => rfl
  | cons c rest ih =>
    simp only [indexOf?]
    rw [if_neg (fun hc => h (by rw [← hc]; exact List.mem_cons_self c rest)),
      ih (fun hm => h (List.mem_cons_of_mem c hm))]
    rfl

theorem lastIndexOf?_eq_none (cs : List Char) (t : Char) (h : t ∉ cs) :
    lastIndexOf? cs t = none := by
  induction cs with
  | nil => rfl
  | cons c rest ih =>
    have h1 : lastIndexOf? rest t = none := ih (fun hm => h (List.mem_cons_of_mem c hm))
    simp only [lastIndexOf?, h1]
    exact if_neg (fun hc => h (by rw [← hc]; exact List.mem_cons_self c rest))

theorem lastIndexOf?_get? (cs : List Char) (t : Char) (i : Nat)
    (h : lastIndexOf? cs t = some i) : cs.get? i = some t := by
  induction cs generalizing i with
  | nil => cases h
  | cons c rest ih =>
    simp only [lastIndexOf?] at h
    cases h1 : lastIndexOf? rest t with
    | some j =>
      rw [h1] at h
      cases h
      exact ih j h1
    | none =>
      rw [h1] at h
      by_cases hc : c = t
      · rw [if_pos hc] at h
        cases h
        simpa using congrArg some hc
      · rw [if_neg hc] at h
        cases h

theorem get?_some_lt (cs : List Char) (i : Nat) (c : Char) (h : cs.get? i = some c) :
    i < cs.length := by
  induction cs generalizing i with
  | nil => cases h
  | cons x rest ih =>
    cases i with
    | zero => simp only [List.length_cons]; omega
    | succ n =>
      simp only [List.get?] at h
      have := ih n h
      simp only [List.length_cons]
      omega

theorem drop_last_of_get? (cs : List Char) (i : Nat) (c : Char)
    (hget : cs.get? i = some c) (hlast : i + 1 = cs.length) : cs.drop i = [c] := by
  induction cs generalizing i with
  | nil => cases hget
  | cons x rest ih =>
    cases i with
    | zero =>
      simp only [List.get?] at hget
      cases hget
      have hre : rest = [] := by
        cases rest with
        | nil => rfl
        | cons y ys => simp [List.length_cons] at hlast
      subst hre; rfl
    | succ n =>
      simp only [List.get?] at hget
      have hl : n + 1 = rest.length := by
        simp only [List.length_cons] at hlast; omega
      simpa [List.drop] using ih n hget hl

theorem drop_of_length_le (cs : List Char) (n : Nat) (h : cs.length ≤ n) : cs.drop n = [] := by
  induction cs generalizing n with
  | nil => simp
  | cons x rest ih =>
    cases n with
    | zero => simp [List.length_cons] at h
    | succ m =>
      simp only [List.length_cons] at h
      simpa [List.drop] using ih m (by omega)

theorem take_of_len_le (cs : List Char) (n : Nat) (h : cs.length ≤ n) : cs.take n = cs := by
  induction cs generalizing n with
  | nil => simp
  | cons x rest ih =>
    cases n with
    | zero => simp [List.length_cons] at h
    | succ m =>
      simp only [List.length_cons] at h
      simp [List.take, ih m (by omega)]

theorem jsSlice_stop_zero (cs : List Char) (s : Int) : jsSlice cs s 0 = [] := by
  unfold jsSlice clampIdx
  simp

theorem jsonParse_empty : jsonParse (String.mk []) = none := rfl

theorem jsonParse_close_brace : jsonParse (String.mk ['}']) = none := rfl

theorem extract_no_close_brace (content : String) (h : '}' ∉ content.toList) :
    jsonParse (extractJsonSlice content) = none := by
  unfold extractJsonSlice
  have h2 : jsLastIndexOf content.toList '}' = -1 := by
    unfold jsLastIndexOf
    rw [lastIndexOf?_eq_none _ _ h]
  rw [h2, show (-1 : Int) + 1 = 0 by norm_num, jsSlice_stop_zero]
  exact jsonParse_empty

theorem extract_no_open_brace (content : String) (h : '{' ∉ content.toList) :
    jsonParse (extractJsonSlice content) = none := by
  unfold extractJsonSlice
  have h1 : jsIndexOf content.toList '{' = -1 := by
    unfold jsIndexOf
    rw [indexOf?_eq_none _ _ h]
  rw [h1]
  cases h2 : lastIndexOf? content.toList '}' with
  | none =>
    have h3 : jsLastIndexOf content.toList '}' = -1 := by
      unfold jsLastIndexOf; rw [h2]
    rw [h3, show (-1 : Int) + 1 = 0 by norm_num, jsSlice_stop_zero]
    exact jsonParse_empty
  | some j =>
    have h3 : jsLastIndexOf content.toList '}' = (j : Int) := by
      unfold jsLastIndexOf; rw [h2]
    rw [h3]
    have hget : content.toList.get? j = some '}' := lastIndexOf?_get? _ _ j h2
    have hj : j < content.toList.length := get?_some_lt _ _ _ hget
    have hstart : clampIdx content.toList.length (-1) = content.toList.length - 1 := by
      unfold clampIdx
      rw [if_pos (by norm_num)]
      omega
    have hstop : clampIdx content.toList.length ((j : Int) + 1) = j + 1 := by
      unfold clampIdx
      rw [if_neg (by omega)]
      have hc : ((j : Int) + 1).toNat = j + 1 := by omega
      rw [hc]
      exact Nat.min_eq_left (by omega)
    unfold jsSlice
    rw [hstart, hstop]
    rcases Nat.lt_or_ge (j + 1) content.toList.length with hlt | hge
    · rw [drop_of_length_le _ _ (by rw [List.length_take]; omega)]
      exact jsonParse_empty
    · have htake : content.toList.take (j + 1) = content.toList :=
        take_of_len_le _ _ (by omega)
      rw [htake, show content.toList.length - 1 = j by omega,
        drop_last_of_get? _ _ _ hget (by omega)]
      exact jsonParse_close_brace

/-- C5. For every raw model response text: the parse step slices the text
from the first opening brace to the last closing brace
(part_000 lines 299-304); whenever either brace is absent or the slice
fails to parse as JSON, the step fails and the error carries the whole
offending raw text (the logged diagnostic at line 306), never silently
discarding it. -/
theorem parseModelResponse_malformed (content : String)
    (h : '{' ∉ content.toList ∨ '}' ∉ content.toList ∨
      jsonParse (extractJsonSlice content) = none) :
    parseModelResponse content =
      .error ("❌ OpenAI response was not valid JSON:\n" ++ content) := by
  have hn : jsonParse (extractJsonSlice content) = none := by
    rcases h with h | h | h
    · exact extract_no_open_brace content h
    · exact extract_no_close_brace content h
    · exact h
  simp [parseModelResponse, hn]

theorem parseModelResponse_malformed_witness :
    ('{' ∉ "not json at all".toList ∨ '}' ∉ "not json at all".toList ∨
      jsonParse (extractJsonSlice "not json at all") = none) ∧
    parseModelResponse "not json at all" =
      .error ("❌ OpenAI response was not valid JSON:\n" ++ "not json at all") :=
  ⟨Or.inl (by decide),
    parseModelResponse_malformed "not json at all" (Or.inl (by decide))⟩

/-- C8. The final revision's analyze handler resolves the video to
analyze solely from the explicit videoId's document (server.js lines
85-94, part_000 lines 217-232): for any two server states agreeing on
the document store but with arbitrary in-process `lastUploadedFile`
values, the whole observable outcome is identical, and the inputUri
submitted to the annotation client is exactly the requested document's
gcsUri.  (The legacy revisions, part_001 lines 72-103 and part_000
lines 57-92, instead analyze the global last uploaded file.) -/
theorem analyze_source_independent_of_lastUploadedFile
    (st : JobStore) (a b : String) (v : String) (env : AnalyzeEnv) (doc : VideoDoc)
    (hdoc : storeGet st v = some doc) :
    processAnalyze (some v) env ⟨st, a⟩ = processAnalyze (some v) env ⟨st, b⟩ ∧
    (processAnalyze (some v) env ⟨st, a⟩).annRequests = [doc.gcsUri] := by
  refine ⟨rfl, ?_⟩
  show (analyzeVideo (some v) env st).annRequests = [doc.gcsUri]
  simp only [analyzeVideo, hdoc]
  cases awaitOperation analyzeTimeoutMs env.annOutcome with
  | error e => rfl
  | ok results =>
    cases results with
    | nil => rfl
    | cons annResult rest =>
      simp only
      cases parseModelResponse (jsTrim (env.complete
          (extractFeatureLines annResult.segmentLabelAnnotations 10))) with
      | error e => rfl
      | ok parsed =>
        simp only
        by_cases hput : env.artifactPutOk
        · by_cases hupd : env.docUpdateOk
          · simp [hput, hupd]
          · simp [hput, hupd]
        · simp [hput]

theorem analyze_source_independent_witness :
    storeGet [("v1", docUploaded)] "v1" = some docUploaded ∧
    (processAnalyze (some "v1") envOk ⟨[("v1", docUploaded)], "older.mp4"⟩ =
      processAnalyze (some "v1") envOk ⟨[("v1", docUploaded)], "newer.mp4"⟩ ∧
    (processAnalyze (some "v1") envOk ⟨[("v1", docUploaded)], "older.mp4"⟩).annRequests =
      [docUploaded.gcsUri]) :=
  ⟨rfl, analyze_source_independent_of_lastUploadedFile [("v1", docUploaded)]
    "older.mp4" "newer.mp4" "v1" envOk docUploaded rfl⟩

/-- C10. If the model response fails the JSON slice-and-parse step, the
handler returns at part_000 line 307, before the artifact write and
the document update (lines 310-321): the response is the invalid-JSON
500, no artifact is uploaded, and the store — status, analysisPath,
analyzedAt — is exactly as before the call. -/
theorem parse_failure_no_persistence (v : String) (env : AnalyzeEnv) (st : JobStore)
    (doc : VideoDoc) (afterMs : Nat) (annResult : AnnResult) (rest : List AnnResult)
    (hdoc : storeGet st v = some doc)
    (hann : env.annOutcome = .completes afterMs (annResult :: rest))
    (htime : afterMs ≤ analyzeTimeoutMs)
    (hparse : jsonParse (extractJsonSlice (jsTrim (env.complete
      (extractFeatureLines annResult.segmentLabelAnnotations 10)))) = none) :
    analyzeVideo (some v) env st =
      ⟨.serverError "❌ OpenAI returned invalid JSON. Check logs for details.", st, [],
        [doc.gcsUri]⟩ := by
  have hawait : awaitOperation analyzeTimeoutMs env.annOutcome = .ok (annResult :: rest) := by
    rw [hann]
    simp [awaitOperation, htime]
  have hpm : parseModelResponse (jsTrim (env.complete
      (extractFeatureLines annResult.segmentLabelAnnotations 10))) =
      .error ("❌ OpenAI response was not valid JSON:\n" ++ jsTrim (env.complete
        (extractFeatureLines annResult.segmentLabelAnnotations 10))) := by
    unfold parseModelResponse
    rw [hparse]
  simp only [analyzeVideo, hdoc, hawait, hpm]

theorem parse_failure_no_persistence_witness :
    storeGet [("v1", docUploaded)] "v1" = some docUploaded ∧
    envBadJson.annOutcome = .completes 1000 [sampleAnnResult] ∧
    1000 ≤ analyzeTimeoutMs ∧
    jsonParse (extractJsonSlice (jsTrim (envBadJson.complete
      (extractFeatureLines sampleAnnResult.segmentLabelAnnotations 10)))) = none ∧
    analyzeVideo (some "v1") envBadJson [("v1", docUploaded)] =
      ⟨.serverError "❌ OpenAI returned invalid JSON. Check logs for details.",
        [("v1", docUploaded)], [], [docUploaded.gcsUri]⟩ :=
  ⟨rfl, rfl, by decide, rfl,
    parse_failure_no_persistence "v1" envBadJson [("v1", docUploaded)] docUploaded
      1000 sampleAnnResult [] rfl rfl (by decide) rfl⟩

end BoltVideo
